import Mathlib

/-!
Verification of the sliding-window rate limiter in
`backend/src/rate_limiter.py` (with the flat per-user variant in
`backend/rate_limiter.py` agreeing on the shared helpers).

Timestamps (`time.time()` values) are modelled as exact rationals `ℚ`;
`max_requests` and `window` are Python ints, modelled as `ℤ`.  The mutable
store `self.requests` (a nested defaultdict mapping user id and endpoint to
a list of timestamps) is modelled as a function `String → String → List ℚ`
defaulting to the empty list, and each Python method becomes a pure function
threading that state explicitly.  All claims quantify over calls made "at
the same instant", so the two `time.time()` reads inside one call are a
single `now` parameter.
-/

namespace RateLimiterModel

/-- Python `int(x)` for a float/rational: truncation toward zero. -/
def pyInt (q : ℚ) : ℤ := if 0 ≤ q then ⌊q⌋ else ⌈q⌉

/-- Python `min(l)` on a nonempty list of rationals (the `0` default is never
used by callers, which guard on emptiness just as the source does). -/
def pyMinList : List ℚ → ℚ
  | [] => 0
  | h :: t => t.foldl min h

/-- The store `self.requests` of `RateLimiter.__init__`: a nested defaultdict
`user_id → endpoint → list of request timestamps`, empty by default. -/
structure RLState where
  requests : String → String → List ℚ

/-- A freshly constructed `RateLimiter()`: every log is empty. -/
def initialState : RLState := ⟨fun _ _ => []⟩

/-- Assignment `self.requests[user_id][endpoint] = l`. -/
def updateLog (s : RLState) (u e : String) (l : List ℚ) : RLState :=
  ⟨fun u' e' => if u' = u ∧ e' = e then l else s.requests u' e'⟩

/-- Method `RateLimiter._clean_old_requests` applied to one log: keep the
timestamps `t` with `now - t < window`. -/
def cleanOldRequests (now : ℚ) (window : ℤ) (log : List ℚ) : List ℚ :=
  log.filter fun t => now - t < (window : ℚ)

/-- The second critical section of `RateLimiter.is_rate_limited`: compare the
log length against `max_requests`; deny without touching the log when the
quota is filled, otherwise append `now` and admit.  Returns the Python
result (`true` = rate limited) and the new log. -/
def compareAndAppend (maxRequests : ℤ) (now : ℚ) (log : List ℚ) :
    Bool × List ℚ :=
  if maxRequests ≤ (log.length : ℤ) then (true, log) else (false, log ++ [now])

/-- Method `RateLimiter.is_rate_limited`: prune the key's log, then compare and
(on admission) append the current timestamp. -/
def isRateLimited (s : RLState) (u e : String) (maxRequests window : ℤ)
    (now : ℚ) : Bool × RLState :=
  let cleaned := cleanOldRequests now window (s.requests u e)
  let r := compareAndAppend maxRequests now cleaned
  (r.1, updateLog s u e r.2)

/-- Method `RateLimiter.get_remaining_requests`: prune, then report
`max(0, max_requests - len(log))`. -/
def getRemainingRequests (s : RLState) (u e : String) (maxRequests window : ℤ)
    (now : ℚ) : ℤ × RLState :=
  let cleaned := cleanOldRequests now window (s.requests u e)
  (max 0 (maxRequests - (cleaned.length : ℤ)), updateLog s u e cleaned)

/-- Method `RateLimiter.get_reset_time`: returns `0` on an empty stored log, otherwise
`max(0, min(log) + window - now)`.  Note the source does NOT prune here: the
minimum ranges over the raw stored log. -/
def getResetTime (s : RLState) (u e : String) (window : ℤ) (now : ℚ) : ℚ :=
  let log := s.requests u e
  if log.isEmpty then 0 else max 0 (pyMinList log + (window : ℚ) - now)

/-- Python `s.split(",")[0]`: the characters before the first comma (the
whole string when it has no comma). -/
def takeUntilComma : List Char → List Char
  | [] => []
  | c :: cs => if c = ',' then [] else c :: takeUntilComma cs

/-- Drop leading whitespace characters. -/
def dropLeadingWs : List Char → List Char
  | [] => []
  | c :: cs => if c.isWhitespace then dropLeadingWs cs else c :: cs

/-- Python `s.strip()`: drop whitespace from both ends. -/
def pyStrip (l : List Char) : List Char :=
  (dropLeadingWs (dropLeadingWs l.reverse).reverse)

/-- Function `get_user_id`: first comma-separated entry of a truthy (present and
nonempty) `X-Forwarded-For` header, stripped of surrounding whitespace; else
the peer address `request.client.host` when `request.client` exists; else
`"unknown"`. -/
def getUserId (forwarded clientHost : Option String) : String :=
  match forwarded with
  | some f => if f = "" then clientHost.getD "unknown"
              else String.mk (pyStrip (takeUntilComma f.data))
  | none => clientHost.getD "unknown"

/-- The response data raised as `HTTPException(status_code=429, ...)` by
`rate_limit_dependency` on denial. -/
structure DeniedResponse where
  statusCode : ℕ
  limitHeader : String
  remainingHeader : String
  resetHeader : String
  retryAfterHeader : String
  detail : String
deriving DecidableEq

/-- The headers stashed in `request.state.rate_limit_headers` on admission. -/
structure AllowedHeaders where
  limitHeader : String
  remainingHeader : String
  resetHeader : String
deriving DecidableEq

/-- Outcome of one invocation of the dependency created by
`create_rate_limiter`. -/
inductive DepResult
  | denied (resp : DeniedResponse)
  | allowed (headers : AllowedHeaders) (userId : String)
deriving DecidableEq

/-- The body of `rate_limit_dependency` in `create_rate_limiter`: resolve the
user id, run `is_rate_limited`, and either raise the 429 response (headers and
message built with Python `str(int(reset_time))`) or record the advisory
headers and return the user id. -/
def rateLimitDependency (s : RLState) (forwarded clientHost : Option String)
    (limit : ℤ) (endpoint : String) (window : ℤ) (now : ℚ) :
    DepResult × RLState :=
  let userId := getUserId forwarded clientHost
  let r := isRateLimited s userId endpoint limit window now
  if r.1 then
    let resetTime := getResetTime r.2 userId endpoint window now
    (DepResult.denied
      { statusCode := 429
        limitHeader := toString limit
        remainingHeader := "0"
        resetHeader := toString (pyInt resetTime)
        retryAfterHeader := toString (pyInt resetTime)
        detail := "Rate limit exceeded. Try again in " ++
          toString (pyInt resetTime) ++ " seconds." }, r.2)
  else
    let r2 := getRemainingRequests r.2 userId endpoint limit window now
    let resetTime := getResetTime r2.2 userId endpoint window now
    (DepResult.allowed
      { limitHeader := toString limit
        remainingHeader := toString r2.1
        resetHeader := toString (pyInt resetTime) } userId, r2.2)

/-- Factory `create_rate_limiter`: a factory that closes over the limiter, limit,
endpoint and window and returns the request dependency.  The source performs
no validation whatsoever on `limit` or `window`. -/
def createRateLimiter (limit : ℤ) (endpoint : String) (window : ℤ) :
    RLState → Option String → Option String → ℚ → DepResult × RLState :=
  fun s forwarded clientHost now =>
    rateLimitDependency s forwarded clientHost limit endpoint window now

/-- A sequence of `is_rate_limited` calls for one key, each with its own
`(window, now)` pair, returning the results in call order and the final
state. -/
def runCalls (s : RLState) (u e : String) (maxRequests : ℤ) :
    List (ℤ × ℚ) → List Bool × RLState
  | [] => ([], s)
  | (w, t) :: rest =>
      let r := isRateLimited s u e maxRequests w t
      let rr := runCalls r.2 u e maxRequests rest
      (r.1 :: rr.1, rr.2)

/-!
Concurrency model.  In the source, one `is_rate_limited` call executes two
critical sections under the per-user lock: first the prune inside
`_clean_old_requests`, then the compare-and-append.  A concurrent caller may
run between the two.  For `n` callers hitting the same (identity, operation)
key at the same instant, the shared state is that key's log together with
each caller's progress; a schedule is the order in which the scheduler lets
callers run their next critical section.
-/

/-- Progress of one caller of `is_rate_limited`: `start` (its prune has not
run), `cleaned` (pruned, compare-and-append pending), `done r` (finished
with Python result `r`; `r = false` means admitted). -/
inductive CallPhase
  | start
  | cleaned
  | done (limited : Bool)
deriving DecidableEq

/-- Whether a caller has finished. -/
def isDone : CallPhase → Bool
  | CallPhase.done _ => true
  | _ => false

/-- Number of callers that finished with result `b`. -/
def countDone (b : Bool) : List CallPhase → ℕ
  | [] => 0
  | p :: ps => (if p = CallPhase.done b then 1 else 0) + countDone b ps

/-- One atomic action of caller `i`: its prune critical section if it has
not pruned yet, otherwise its compare-and-append critical section.  A
finished or nonexistent caller leaves the state unchanged. -/
def concStep (maxRequests window : ℤ) (now : ℚ)
    (st : List ℚ × List CallPhase) (i : ℕ) : List ℚ × List CallPhase :=
  match st.2[i]? with
  | none => st
  | some CallPhase.start =>
      (cleanOldRequests now window st.1, st.2.set i CallPhase.cleaned)
  | some CallPhase.cleaned =>
      let r := compareAndAppend maxRequests now st.1
      (r.2, st.2.set i (CallPhase.done r.1))
  | some (CallPhase.done _) => st

/-- Run a schedule: the interleaving chosen by the scheduler, as the list of
caller indices granted the lock in turn. -/
def concRun (maxRequests window : ℤ) (now : ℚ)
    (st : List ℚ × List CallPhase) : List ℕ → List ℚ × List CallPhase
  | [] => st
  | i :: sched =>
      concRun maxRequests window now (concStep maxRequests window now st i) sched

/-! General lemmas about the model. -/

theorem RLState.eq_of_requests_eq {s t : RLState}
    (h : ∀ u e, s.requests u e = t.requests u e) : s = t := by
  cases s
  cases t
  simp only [RLState.mk.injEq]
  funext u e
  exact h u e

theorem updateLog_requests (s : RLState) (u e u' e' : String) (l : List ℚ) :
    (updateLog s u e l).requests u' e' =
      if u' = u ∧ e' = e then l else s.requests u' e' := rfl

theorem updateLog_requests_self (s : RLState) (u e : String) (l : List ℚ) :
    (updateLog s u e l).requests u e = l := by
  simp [updateLog]

theorem updateLog_updateLog (s : RLState) (u e : String) (l l' : List ℚ) :
    updateLog (updateLog s u e l) u e l' = updateLog s u e l' := by
  apply RLState.eq_of_requests_eq
  intro u' e'
  by_cases h : u' = u ∧ e' = e <;> simp [updateLog, h]

theorem updateLog_self (s : RLState) (u e : String) (l : List ℚ)
    (h : s.requests u e = l) : updateLog s u e l = s := by
  apply RLState.eq_of_requests_eq
  intro u' e'
  by_cases h' : u' = u ∧ e' = e
  · obtain ⟨rfl, rfl⟩ := h'
    simp [updateLog, h]
  · simp [updateLog, h']

theorem mem_cleanOldRequests (now : ℚ) (W : ℤ) (l : List ℚ) (x : ℚ) :
    x ∈ cleanOldRequests now W l ↔ x ∈ l ∧ now - x < (W : ℚ) := by
  simp [cleanOldRequests]

theorem cleanOldRequests_eq_self (now : ℚ) (W : ℤ) (l : List ℚ)
    (h : ∀ x ∈ l, now - x < (W : ℚ)) : cleanOldRequests now W l = l := by
  rw [cleanOldRequests, List.filter_eq_self]
  intro x hx
  exact decide_eq_true (h x hx)

theorem cleanOldRequests_idem (now : ℚ) (W : ℤ) (l : List ℚ) :
    cleanOldRequests now W (cleanOldRequests now W l) = cleanOldRequests now W l := by
  apply cleanOldRequests_eq_self
  intro x hx
  exact ((mem_cleanOldRequests now W l x).mp hx).2

theorem cleanOldRequests_eq_nil (now : ℚ) (W : ℤ) (l : List ℚ)
    (h : ∀ x ∈ l, (W : ℚ) ≤ now - x) : cleanOldRequests now W l = [] := by
  rw [cleanOldRequests, List.filter_eq_nil_iff]
  intro x hx
  simp only [decide_eq_true_eq, not_lt]
  exact h x hx

theorem cleanOldRequests_replicate (now : ℚ) (W : ℤ) (n : ℕ) (hW : 1 ≤ W) :
    cleanOldRequests now W (List.replicate n now) = List.replicate n now := by
  apply cleanOldRequests_eq_self
  intro x hx
  rw [List.eq_of_mem_replicate hx]
  have : (0 : ℚ) < (W : ℚ) := by exact_mod_cast Int.lt_of_lt_of_le Int.zero_lt_one hW
  simpa using this

theorem foldl_min_mem (t : List ℚ) : ∀ a : ℚ, t.foldl min a ∈ a :: t := by
  induction t with
  | nil => intro a; simp
  | cons b t ih =>
      intro a
      rw [List.foldl_cons]
      rcases List.mem_cons.mp (ih (min a b)) with h1 | h1
      · rcases min_choice a b with h2 | h2
        · rw [h1, h2]
          exact List.mem_cons_self a (b :: t)
        · rw [h1, h2]
          exact List.mem_cons_of_mem a (List.mem_cons_self b t)
      · exact List.mem_cons_of_mem a (List.mem_cons_of_mem b h1)

theorem foldl_min_le (t : List ℚ) : ∀ a x, x ∈ a :: t → t.foldl min a ≤ x := by
  induction t with
  | nil =>
      intro a x hx
      rcases List.mem_cons.mp hx with rfl | h
      · exact le_refl x
      · exact absurd h (List.not_mem_nil x)
  | cons b t ih =>
      intro a x hx
      rw [List.foldl_cons]
      rcases List.mem_cons.mp hx with rfl | h1
      · exact le_trans (ih (min x b) (min x b) (List.mem_cons_self _ t)) (min_le_left x b)
      · rcases List.mem_cons.mp h1 with rfl | h2
        · exact le_trans (ih (min a x) (min a x) (List.mem_cons_self _ t)) (min_le_right a x)
        · exact ih (min a b) x (List.mem_cons_of_mem _ h2)

theorem pyMinList_mem (l : List ℚ) (h : l ≠ []) : pyMinList l ∈ l := by
  cases l with
  | nil => exact absurd rfl h
  | cons a t => exact foldl_min_mem t a

theorem pyMinList_le (l : List ℚ) (x : ℚ) (h : x ∈ l) : pyMinList l ≤ x := by
  cases l with
  | nil => exact absurd h (List.not_mem_nil x)
  | cons a t => exact foldl_min_le t a x h

theorem getResetTime_nonneg (s : RLState) (u e : String) (W : ℤ) (now : ℚ) :
    0 ≤ getResetTime s u e W now := by
  rw [getResetTime]
  split
  · exact le_refl 0
  · exact le_max_left 0 _

theorem pyInt_eq_floor (q : ℚ) (h : 0 ≤ q) : pyInt q = ⌊q⌋ := if_pos h

theorem isRateLimited_requests_other (s : RLState) (u e u' e' : String)
    (M W : ℤ) (now : ℚ) (h : ¬(u' = u ∧ e' = e)) :
    (isRateLimited s u e M W now).2.requests u' e' = s.requests u' e' := by
  simp [isRateLimited, updateLog_requests, h]

theorem getRemainingRequests_requests_other (s : RLState) (u e u' e' : String)
    (M W : ℤ) (now : ℚ) (h : ¬(u' = u ∧ e' = e)) :
    (getRemainingRequests s u e M W now).2.requests u' e' = s.requests u' e' := by
  simp [getRemainingRequests, updateLog_requests, h]

theorem isRateLimited_fst_congr (s t : RLState) (u e : String) (M W : ℤ)
    (now : ℚ) (h : s.requests u e = t.requests u e) :
    (isRateLimited s u e M W now).1 = (isRateLimited t u e M W now).1 := by
  simp [isRateLimited, h]

theorem getRemainingRequests_fst_congr (s t : RLState) (u e : String)
    (M W : ℤ) (now : ℚ) (h : s.requests u e = t.requests u e) :
    (getRemainingRequests s u e M W now).1 =
      (getRemainingRequests t u e M W now).1 := by
  simp [getRemainingRequests, h]

/-! Claim theorems. -/

/-- States reached in the worked scenario with `max_requests = 3`,
`window = 60`, one key, calls at t = 0, 1, 2, 3, 61. -/
def c3s1 : RLState := (isRateLimited initialState "u" "search" 3 60 0).2

def c3s2 : RLState := (isRateLimited c3s1 "u" "search" 3 60 1).2

def c3s3 : RLState := (isRateLimited c3s2 "u" "search" 3 60 2).2

def c3s4 : RLState := (isRateLimited c3s3 "u" "search" 3 60 3).2

def c3s5 : RLState := (isRateLimited c3s4 "u" "search" 3 60 61).2

/-- C3 counterexample: in the worked scenario, after the call at t = 61 the
stored log is [2, 61], not [1, 2, 61], and the reported remaining is 1, not
0: the prune rule `now - t >= window` also expires the t = 1 entry at
t = 61, since 61 - 1 = 60 >= 60. -/
theorem C3_counterexample :
    c3s5.requests "u" "search" = [2, 61]
  ∧ ([2, 61] : List ℚ) ≠ [1, 2, 61]
  ∧ (getRemainingRequests c3s5 "u" "search" 3 60 61).1 = 1
  ∧ (1 : ℤ) ≠ 0 := by
  refine ⟨?_, by norm_num, ?_, by norm_num⟩ <;>
  norm_num [c3s5, c3s4, c3s3, c3s2, c3s1, isRateLimited, getRemainingRequests,
    cleanOldRequests, compareAndAppend, updateLog, initialState,
    List.filter_cons]

/-- C3 (amended): with max_requests = 3 and window = 60 s for one
identity/operation starting from an empty log, the calls at t = 0, 1, 2 are
admitted with remaining 2, 1, 0; the call at t = 3 is denied with
reset_seconds = 57; the call at t = 61 is admitted — but both the t = 0 and
t = 1 entries have expired by then (now - t >= 60), so the active log after
it is [2, 61] and the reported remaining is 1. -/
theorem C3_worked_scenario :
    (isRateLimited initialState "u" "search" 3 60 0).1 = false
  ∧ (getRemainingRequests c3s1 "u" "search" 3 60 0).1 = 2
  ∧ (isRateLimited c3s1 "u" "search" 3 60 1).1 = false
  ∧ (getRemainingRequests c3s2 "u" "search" 3 60 1).1 = 1
  ∧ (isRateLimited c3s2 "u" "search" 3 60 2).1 = false
  ∧ (getRemainingRequests c3s3 "u" "search" 3 60 2).1 = 0
  ∧ (isRateLimited c3s3 "u" "search" 3 60 3).1 = true
  ∧ getResetTime c3s4 "u" "search" 60 3 = 57
  ∧ (isRateLimited c3s4 "u" "search" 3 60 61).1 = false
  ∧ c3s5.requests "u" "search" = [2, 61]
  ∧ (getRemainingRequests c3s5 "u" "search" 3 60 61).1 = 1 := by
  norm_num [c3s5, c3s4, c3s3, c3s2, c3s1, isRateLimited, getRemainingRequests,
    getResetTime, cleanOldRequests, compareAndAppend, updateLog, initialState,
    pyMinList, List.filter_cons, min_def, max_def]

/-- A reachable state whose stored log for key ("u", "search") is [0, 50]:
two admitted calls at t = 0 and t = 50 with max_requests = 3, window = 60. -/
def c6state : RLState :=
  (isRateLimited (isRateLimited initialState "u" "search" 3 60 0).2
    "u" "search" 3 60 50).2

/-- C6 counterexample: at now = 61 the key's active log is [50] (nonempty),
yet `get_reset_time` returns 0 — not (oldest active entry + window) - now =
49 — because the source takes the minimum over the raw stored log [0, 50]
without pruning, and the stale oldest entry 0 drives the result to
max(0, 0 + 60 - 61) = 0. -/
theorem C6_counterexample :
    c6state.requests "u" "search" = [0, 50]
  ∧ cleanOldRequests 61 60 (c6state.requests "u" "search") = [50]
  ∧ getResetTime c6state "u" "search" 60 61 = 0
  ∧ pyMinList (cleanOldRequests 61 60 (c6state.requests "u" "search"))
      + (60 : ℚ) - 61 = 49
  ∧ getResetTime c6state "u" "search" 60 61 ≠
      pyMinList (cleanOldRequests 61 60 (c6state.requests "u" "search"))
        + (60 : ℚ) - 61
  ∧ cleanOldRequests 61 60 (c6state.requests "u" "search") ≠ [] := by
  norm_num [c6state, isRateLimited, getResetTime, cleanOldRequests,
    compareAndAppend, updateLog, initialState, pyMinList, List.filter_cons,
    min_def, max_def]

/-- C6 (amended): `get_reset_time` returns 0 when the raw stored log is
empty, and otherwise max(0, oldest stored entry + window - now), computed
without pruning; the result is never negative.  Whenever every stored entry
is still active, the stored log coincides with the active log, the result
is 0 exactly when that log is empty, and on a nonempty log it equals
(oldest active entry time + window) - now.  (On a stored log whose oldest
entry has expired while newer entries remain active, the function returns 0
even though the active log is nonempty — see the counterexample.) -/
theorem C6_reset_time_raw_log (s : RLState) (u e : String) (W : ℤ) (now : ℚ) :
    0 ≤ getResetTime s u e W now
  ∧ (s.requests u e = [] → getResetTime s u e W now = 0)
  ∧ (s.requests u e ≠ [] →
      getResetTime s u e W now
        = max 0 (pyMinList (s.requests u e) + (W : ℚ) - now))
  ∧ ((∀ x ∈ s.requests u e, now - x < (W : ℚ)) →
      cleanOldRequests now W (s.requests u e) = s.requests u e
      ∧ (getResetTime s u e W now = 0 ↔ s.requests u e = [])
      ∧ (s.requests u e ≠ [] →
          getResetTime s u e W now
            = pyMinList (s.requests u e) + (W : ℚ) - now)) := by
  refine ⟨getResetTime_nonneg s u e W now, ?_, ?_, ?_⟩
  · intro h
    simp [getResetTime, h]
  · intro h
    rw [getResetTime]
    simp [List.isEmpty_iff, h]
  · intro hact
    have hclean : cleanOldRequests now W (s.requests u e) = s.requests u e :=
      cleanOldRequests_eq_self now W _ hact
    refine ⟨hclean, ?_, ?_⟩
    · constructor
      · intro h0
        by_contra hne
        have hmem := pyMinList_mem _ hne
        have hlt := hact _ hmem
        have hpos : 0 < pyMinList (s.requests u e) + (W : ℚ) - now := by
          linarith
        rw [getResetTime] at h0
        simp only [hne, List.isEmpty_iff, if_false] at h0
        rw [max_eq_right hpos.le] at h0
        exact absurd h0 hpos.ne'
      · intro h
        simp [getResetTime, h]
    · intro hne
      have hmem := pyMinList_mem _ hne
      have hlt := hact _ hmem
      have hpos : 0 < pyMinList (s.requests u e) + (W : ℚ) - now := by
        linarith
      rw [getResetTime]
      simp only [hne, List.isEmpty_iff, if_false]
      exact max_eq_right hpos.le

/-- C6 witness: the amended theorem applied at a reachable concrete state
with a single active entry. -/
theorem C6_witness :
    0 ≤ getResetTime c3s1 "u" "search" 60 0
  ∧ (c3s1.requests "u" "search" = [] → getResetTime c3s1 "u" "search" 60 0 = 0)
  ∧ (c3s1.requests "u" "search" ≠ [] →
      getResetTime c3s1 "u" "search" 60 0
        = max 0 (pyMinList (c3s1.requests "u" "search") + (60 : ℚ) - 0))
  ∧ ((∀ x ∈ c3s1.requests "u" "search", 0 - x < ((60 : ℤ) : ℚ)) →
      cleanOldRequests 0 60 (c3s1.requests "u" "search")
          = c3s1.requests "u" "search"
      ∧ (getResetTime c3s1 "u" "search" 60 0 = 0 ↔
          c3s1.requests "u" "search" = [])
      ∧ (c3s1.requests "u" "search" ≠ [] →
          getResetTime c3s1 "u" "search" 60 0
            = pyMinList (c3s1.requests "u" "search") + (60 : ℚ) - 0)) :=
  C6_reset_time_raw_log c3s1 "u" "search" 60 0

/-- C7: `is_rate_limited` and `get_remaining_requests` for one operation key
never modify the log of a different (identity, operation) key, and the
admission decision and remaining count of the other key are unchanged by a
call on the first key. -/
theorem C7_operation_isolation (s : RLState) (u e u' e' : String)
    (M W M' W' : ℤ) (now now' : ℚ) (h : ¬(u' = u ∧ e' = e)) :
    (isRateLimited s u e M W now).2.requests u' e' = s.requests u' e'
  ∧ (getRemainingRequests s u e M W now).2.requests u' e' = s.requests u' e'
  ∧ (isRateLimited (isRateLimited s u e M W now).2 u' e' M' W' now').1
      = (isRateLimited s u' e' M' W' now').1
  ∧ (getRemainingRequests (isRateLimited s u e M W now).2 u' e' M' W' now').1
      = (getRemainingRequests s u' e' M' W' now').1 := by
  refine ⟨isRateLimited_requests_other s u e u' e' M W now h,
    getRemainingRequests_requests_other s u e u' e' M W now h, ?_, ?_⟩
  · exact isRateLimited_fst_congr _ _ u' e' M' W' now'
      (isRateLimited_requests_other s u e u' e' M W now h)
  · exact getRemainingRequests_fst_congr _ _ u' e' M' W' now'
      (isRateLimited_requests_other s u e u' e' M W now h)

/-- C7 witness: exhausting "search" for identity "u" does not touch the
"answer" log of the same identity. -/
theorem C7_witness :
    ¬(("u" : String) = "u" ∧ ("answer" : String) = "search")
  ∧ ((isRateLimited initialState "u" "search" 3 60 0).2.requests "u" "answer"
        = initialState.requests "u" "answer"
    ∧ (getRemainingRequests initialState "u" "search" 3 60 0).2.requests
        "u" "answer" = initialState.requests "u" "answer"
    ∧ (isRateLimited (isRateLimited initialState "u" "search" 3 60 0).2
          "u" "answer" 5 60 0).1
        = (isRateLimited initialState "u" "answer" 5 60 0).1
    ∧ (getRemainingRequests (isRateLimited initialState "u" "search" 3 60 0).2
          "u" "answer" 5 60 0).1
        = (getRemainingRequests initialState "u" "answer" 5 60 0).1) :=
  ⟨by decide,
   C7_operation_isolation initialState "u" "search" "u" "answer"
     3 60 5 60 0 0 (by decide)⟩

/-- C8 counterexample: with the forwarding header present but empty,
`get_user_id` returns the peer address, not the (empty) first trimmed entry
of the header value — Python's `if forwarded:` is false on the empty
string. -/
theorem C8_counterexample :
    getUserId (some "") (some "1.2.3.4") = "1.2.3.4"
  ∧ String.mk (pyStrip (takeUntilComma ("" : String).data)) = ""
  ∧ ("1.2.3.4" : String) ≠ "" := by
  refine ⟨rfl, rfl, by decide⟩

/-- C8 (amended): identity resolution is total and never fails: if the
forwarding header is present with a non-empty value, the result is its first
comma-separated entry trimmed of surrounding whitespace; if the header is
absent or empty, the result is the direct peer address when one exists, and
the fixed sentinel "unknown" otherwise. -/
theorem C8_identity_resolution (f : String) (c : Option String)
    (hf : f ≠ "") :
    getUserId (some f) c = String.mk (pyStrip (takeUntilComma f.data))
  ∧ getUserId (some "") c = c.getD "unknown"
  ∧ getUserId none c = c.getD "unknown"
  ∧ getUserId none none = "unknown" := by
  refine ⟨?_, rfl, rfl, rfl⟩
  simp [getUserId, hf]

/-- C8 witness: the amended theorem at a concrete forwarded chain. -/
theorem C8_witness :
    ("10.0.0.1, 10.0.0.2" : String) ≠ ""
  ∧ (getUserId (some "10.0.0.1, 10.0.0.2") (some "9.9.9.9")
        = String.mk (pyStrip (takeUntilComma ("10.0.0.1, 10.0.0.2" : String).data))
    ∧ getUserId (some "") (some "9.9.9.9") = (some "9.9.9.9").getD "unknown"
    ∧ getUserId none (some "9.9.9.9") = (some "9.9.9.9").getD "unknown"
    ∧ getUserId none none = "unknown") :=
  ⟨by decide, C8_identity_resolution "10.0.0.1, 10.0.0.2" (some "9.9.9.9")
    (by decide)⟩

/-- C9: the source rejects nothing at construction time: `create_rate_limiter`
with `limit = 0` (a non-positive quota) succeeds and yields a dependency that,
at request time, denies every request with the ordinary 429 rate-limit
response — the configuration error the claim requires at construction is
never raised, at construction or at call time. -/
theorem C9_no_construction_validation :
    (createRateLimiter 0 "search" 3600 initialState none (some "9.9.9.9") 0).1
      = DepResult.denied
          { statusCode := 429
            limitHeader := "0"
            remainingHeader := "0"
            resetHeader := "0"
            retryAfterHeader := "0"
            detail := "Rate limit exceeded. Try again in 0 seconds." } := by
  norm_num [createRateLimiter, rateLimitDependency, getUserId, isRateLimited,
    getResetTime, cleanOldRequests, compareAndAppend, updateLog, initialState,
    pyInt, List.filter_cons]
  exact ⟨rfl, rfl⟩

/-- C10: for max_requests ≤ 0, every `is_rate_limited` call returns True
(denied) for every identity, operation, window and time, the post-call log
is just the pruned log (nothing is appended), and from an empty log any
sequence of such calls returns all-True and leaves the log empty; no error
is raised. -/
theorem C10_nonpositive_quota_denies_all (s : RLState) (u e : String)
    (M W : ℤ) (now : ℚ) (calls : List (ℤ × ℚ)) (hM : M ≤ 0) :
    (isRateLimited s u e M W now).1 = true
  ∧ (isRateLimited s u e M W now).2.requests u e
      = cleanOldRequests now W (s.requests u e)
  ∧ (s.requests u e = [] →
      (runCalls s u e M calls).1 = List.replicate calls.length true
      ∧ (runCalls s u e M calls).2.requests u e = []) := by
  have hcond : ∀ l : List ℚ, M ≤ (l.length : ℤ) := fun l =>
    le_trans hM (Int.natCast_nonneg l.length)
  refine ⟨?_, ?_, ?_⟩
  · simp [isRateLimited, compareAndAppend, hcond]
  · simp [isRateLimited, compareAndAppend, hcond, updateLog_requests_self]
  · induction calls generalizing s with
    | nil => intro h; exact ⟨rfl, h⟩
    | cons c rest ih =>
        intro h
        obtain ⟨w, t⟩ := c
        have hstep : isRateLimited s u e M w t
            = (true, updateLog s u e []) := by
          simp [isRateLimited, h, cleanOldRequests, compareAndAppend, hM]
        have hnext := ih (updateLog s u e []) (updateLog_requests_self s u e [])
        simp only [runCalls, hstep, List.length_cons, List.replicate_succ]
        exact ⟨by rw [hnext.1], hnext.2⟩

/-- C10 witness: a nonpositive quota at two concrete calls. -/
theorem C10_witness :
    ((0 : ℤ) ≤ 0)
  ∧ ((isRateLimited initialState "u" "search" 0 3600 0).1 = true
    ∧ (isRateLimited initialState "u" "search" 0 3600 0).2.requests "u" "search"
        = cleanOldRequests 0 3600 (initialState.requests "u" "search")
    ∧ (initialState.requests "u" "search" = [] →
        (runCalls initialState "u" "search" 0 [(3600, 0), (60, 1)]).1
            = List.replicate ([(3600, 0), ((60 : ℤ), (1 : ℚ))]).length true
        ∧ (runCalls initialState "u" "search" 0
            [(3600, 0), (60, 1)]).2.requests "u" "search" = [])) :=
  ⟨by decide, C10_nonpositive_quota_denies_all initialState "u" "search"
    0 3600 0 [(3600, 0), (60, 1)] (by decide)⟩

/-- C5: for every key and quota, `get_remaining_requests` is in
[0, max_requests]; evaluated at the same instant, it decreases by exactly 1
after an admitted `is_rate_limited` call for that key and is unchanged by a
denied call. -/
theorem C5_remaining_bounds (s : RLState) (u e : String) (M W : ℤ) (now : ℚ)
    (hM : 0 ≤ M) (hW : 1 ≤ W) :
    (0 ≤ (getRemainingRequests s u e M W now).1
      ∧ (getRemainingRequests s u e M W now).1 ≤ M)
  ∧ ((isRateLimited s u e M W now).1 = false →
      (getRemainingRequests (isRateLimited s u e M W now).2 u e M W now).1
        = (getRemainingRequests s u e M W now).1 - 1)
  ∧ ((isRateLimited s u e M W now).1 = true →
      (getRemainingRequests (isRateLimited s u e M W now).2 u e M W now).1
        = (getRemainingRequests s u e M W now).1) := by
  have hlen : (0 : ℤ) ≤ ((cleanOldRequests now W (s.requests u e)).length : ℤ) :=
    Int.natCast_nonneg _
  refine ⟨⟨le_max_left 0 _, max_le hM (by omega)⟩, ?_, ?_⟩
  · intro hadm
    have hlt : ¬ (M ≤ ((cleanOldRequests now W (s.requests u e)).length : ℤ)) := by
      intro hc
      rw [isRateLimited] at hadm
      simp only [compareAndAppend, hc, if_true] at hadm
      exact Bool.noConfusion hadm
    have hstate : (isRateLimited s u e M W now).2.requests u e
        = cleanOldRequests now W (s.requests u e) ++ [now] := by
      rw [isRateLimited]
      simp only [compareAndAppend, hlt, if_false, updateLog_requests_self]
    have hclean2 : cleanOldRequests now W
        (cleanOldRequests now W (s.requests u e) ++ [now])
        = cleanOldRequests now W (s.requests u e) ++ [now] := by
      apply cleanOldRequests_eq_self
      intro x hx
      rcases List.mem_append.mp hx with hx | hx
      · exact ((mem_cleanOldRequests now W _ x).mp hx).2
      · have hxnow : x = now := List.mem_singleton.mp hx
        subst hxnow
        have hWQ : (0 : ℚ) < (W : ℚ) := by
          exact_mod_cast (by omega : (0 : ℤ) < W)
        simpa using hWQ
    rw [getRemainingRequests, getRemainingRequests]
    simp only [hstate, hclean2, List.length_append, List.length_singleton]
    push_cast
    omega
  · intro hden
    have hge : M ≤ ((cleanOldRequests now W (s.requests u e)).length : ℤ) := by
      by_contra hc
      rw [isRateLimited] at hden
      simp only [compareAndAppend, hc, if_false] at hden
      exact Bool.noConfusion hden
    have hstate : (isRateLimited s u e M W now).2.requests u e
        = cleanOldRequests now W (s.requests u e) := by
      rw [isRateLimited]
      simp only [compareAndAppend, hge, if_true, updateLog_requests_self]
    rw [getRemainingRequests, getRemainingRequests]
    simp only [hstate, cleanOldRequests_idem]

/-- C5 witness: the bounds and step behaviour at a concrete key and
instant. -/
theorem C5_witness :
    ((0 : ℤ) ≤ 3 ∧ (1 : ℤ) ≤ 60)
  ∧ ((0 ≤ (getRemainingRequests initialState "u" "search" 3 60 0).1
      ∧ (getRemainingRequests initialState "u" "search" 3 60 0).1 ≤ 3)
    ∧ ((isRateLimited initialState "u" "search" 3 60 0).1 = false →
        (getRemainingRequests (isRateLimited initialState "u" "search" 3 60 0).2
            "u" "search" 3 60 0).1
          = (getRemainingRequests initialState "u" "search" 3 60 0).1 - 1)
    ∧ ((isRateLimited initialState "u" "search" 3 60 0).1 = true →
        (getRemainingRequests (isRateLimited initialState "u" "search" 3 60 0).2
            "u" "search" 3 60 0).1
          = (getRemainingRequests initialState "u" "search" 3 60 0).1)) :=
  ⟨⟨by decide, by decide⟩,
   C5_remaining_bounds initialState "u" "search" 3 60 0 (by decide) (by decide)⟩

/-- A reachable state whose quota for identity "1.2.3.4" and operation
"search" with max_requests = 1 is exhausted: one admitted call at t = 0. -/
def c4state : RLState := (isRateLimited initialState "1.2.3.4" "search" 1 60 0).2

/-- C4 counterexample: a denial at now = 1/2 s has reset_seconds = 119/2 =
59.5, whose ceiling is 60, yet the response headers and body carry "59":
the source builds them with Python `str(int(reset_time))`, which truncates
(floor), not ceil. -/
theorem C4_counterexample :
    (rateLimitDependency c4state none (some "1.2.3.4") 1 "search" 60 (1/2)).1
      = DepResult.denied
          { statusCode := 429
            limitHeader := "1"
            remainingHeader := "0"
            resetHeader := "59"
            retryAfterHeader := "59"
            detail := "Rate limit exceeded. Try again in 59 seconds." }
  ∧ getResetTime c4state "1.2.3.4" "search" 60 (1/2) = 119/2
  ∧ toString ⌈(119/2 : ℚ)⌉ = "60"
  ∧ ("59" : String) ≠ "60" := by
  have hceil : ⌈(119/2 : ℚ)⌉ = 60 := by
    rw [Int.ceil_eq_iff]
    norm_num
  have hfloor : ⌊(119/2 : ℚ)⌋ = 59 := by norm_num
  refine ⟨?_, ?_, by rw [hceil]; rfl, by decide⟩
  · norm_num [c4state, rateLimitDependency, getUserId, isRateLimited,
      getResetTime, cleanOldRequests, compareAndAppend, updateLog,
      initialState, pyInt, pyMinList, List.filter_cons, max_def, hfloor]
    exact ⟨rfl, rfl, rfl⟩
  · norm_num [c4state, getResetTime, isRateLimited, cleanOldRequests,
      compareAndAppend, updateLog, initialState, pyMinList,
      List.filter_cons, max_def]

/-- C4 (amended): every denied request produces status 429 with headers
X-RateLimit-Limit = max_requests, X-RateLimit-Remaining = 0,
X-RateLimit-Reset = floor(reset_seconds) (Python `int()` truncation, not
ceiling), Retry-After the same, and the body "Rate limit exceeded. Try
again in N seconds." with that same rounded-down integer; the store is the
one left by the denied `is_rate_limited` call. -/
theorem C4_denied_response_floor (s : RLState) (f c : Option String)
    (L : ℤ) (ep : String) (W : ℤ) (now : ℚ)
    (hden : (isRateLimited s (getUserId f c) ep L W now).1 = true) :
    rateLimitDependency s f c L ep W now
      = (DepResult.denied
          { statusCode := 429
            limitHeader := toString L
            remainingHeader := "0"
            resetHeader := toString
              ⌊getResetTime (isRateLimited s (getUserId f c) ep L W now).2
                  (getUserId f c) ep W now⌋
            retryAfterHeader := toString
              ⌊getResetTime (isRateLimited s (getUserId f c) ep L W now).2
                  (getUserId f c) ep W now⌋
            detail := "Rate limit exceeded. Try again in " ++ toString
              ⌊getResetTime (isRateLimited s (getUserId f c) ep L W now).2
                  (getUserId f c) ep W now⌋ ++ " seconds." },
         (isRateLimited s (getUserId f c) ep L W now).2) := by
  rw [rateLimitDependency]
  simp only [hden, if_true]
  rw [pyInt_eq_floor _ (getResetTime_nonneg _ _ _ _ _)]

/-- C4 witness: the amended theorem at a concrete exhausted key, where
reset_seconds = 60 and the emitted headers are "60". -/
theorem C4_witness :
    (isRateLimited c4state (getUserId none (some "1.2.3.4")) "search"
        1 60 0).1 = true
  ∧ rateLimitDependency c4state none (some "1.2.3.4") 1 "search" 60 0
      = (DepResult.denied
          { statusCode := 429
            limitHeader := toString (1 : ℤ)
            remainingHeader := "0"
            resetHeader := toString
              ⌊getResetTime (isRateLimited c4state
                  (getUserId none (some "1.2.3.4")) "search" 1 60 0).2
                  (getUserId none (some "1.2.3.4")) "search" 60 0⌋
            retryAfterHeader := toString
              ⌊getResetTime (isRateLimited c4state
                  (getUserId none (some "1.2.3.4")) "search" 1 60 0).2
                  (getUserId none (some "1.2.3.4")) "search" 60 0⌋
            detail := "Rate limit exceeded. Try again in " ++ toString
              ⌊getResetTime (isRateLimited c4state
                  (getUserId none (some "1.2.3.4")) "search" 1 60 0).2
                  (getUserId none (some "1.2.3.4")) "search" 60 0⌋
              ++ " seconds." },
         (isRateLimited c4state (getUserId none (some "1.2.3.4")) "search"
            1 60 0).2) :=
  have hden : (isRateLimited c4state (getUserId none (some "1.2.3.4"))
      "search" 1 60 0).1 = true := by
    simp [c4state, getUserId, isRateLimited, cleanOldRequests,
      compareAndAppend, updateLog, initialState, List.filter_cons]
  ⟨hden, C4_denied_response_floor c4state none (some "1.2.3.4") 1 "search"
    60 0 hden⟩

theorem isRateLimited_from_replicate (s : RLState) (u e : String) (M : ℕ)
    (W : ℤ) (now : ℚ) (k : ℕ) (hW : 1 ≤ W)
    (h : s.requests u e = List.replicate k now) :
    isRateLimited s u e (M : ℤ) W now
      = if k < M
        then (false, updateLog s u e (List.replicate (k + 1) now))
        else (true, s) := by
  rw [isRateLimited, h, cleanOldRequests_replicate now W k hW]
  by_cases hk : k < M
  · have hcond : ¬ ((M : ℤ) ≤ ((List.replicate k now).length : ℤ)) := by
      rw [List.length_replicate]
      exact_mod_cast Nat.not_le.mpr hk
    simp only [compareAndAppend, hcond, if_false, hk, if_true,
      ← List.replicate_succ']
  · have hcond : (M : ℤ) ≤ ((List.replicate k now).length : ℤ) := by
      rw [List.length_replicate]
      exact_mod_cast Nat.le_of_not_lt hk
    simp only [compareAndAppend, hcond, if_true, hk, if_false,
      updateLog_self s u e _ h]

theorem runCalls_from_replicate (u e : String) (M : ℕ) (W : ℤ) (now : ℚ)
    (hW : 1 ≤ W) :
    ∀ (n k : ℕ) (s : RLState), s.requests u e = List.replicate k now →
      k ≤ M →
      runCalls s u e (M : ℤ) (List.replicate n (W, now))
        = (List.replicate (min n (M - k)) false
            ++ List.replicate (n - (M - k)) true,
           updateLog s u e (List.replicate (min (k + n) M) now)) := by
  intro n
  induction n with
  | zero =>
      intro k s h hk
      rw [List.replicate_zero, show min 0 (M - k) = 0 from by omega,
        show 0 - (M - k) = 0 from by omega,
        show min (k + 0) M = k from by omega,
        updateLog_self s u e _ h]
      rfl
  | succ n ih =>
      intro k s h hk
      rw [List.replicate_succ]
      show (let r := isRateLimited s u e (M : ℤ) W now
            let rr := runCalls r.2 u e (M : ℤ) (List.replicate n (W, now))
            (r.1 :: rr.1, rr.2)) = _
      rw [isRateLimited_from_replicate s u e M W now k hW h]
      by_cases hlt : k < M
      · simp only [hlt, if_true]
        rw [ih (k + 1) (updateLog s u e (List.replicate (k + 1) now))
          (updateLog_requests_self s u e _) (by omega)]
        rw [updateLog_updateLog]
        rw [show min (n + 1) (M - k) = min n (M - (k + 1)) + 1 from by omega,
          show (n + 1) - (M - k) = n - (M - (k + 1)) from by omega,
          show min (k + (n + 1)) M = min (k + 1 + n) M from by omega,
          List.replicate_succ, List.cons_append]
      · have hkM : k = M := by omega
        simp only [hlt, if_false]
        rw [ih k s h hk]
        subst hkM
        rw [show min n (k - k) = 0 from by omega,
          show min (n + 1) (k - k) = 0 from by omega,
          show n - (k - k) = n from by omega,
          show (n + 1) - (k - k) = n + 1 from by omega,
          show min (k + (n + 1)) k = min (k + n) k from by omega]
        simp [List.replicate_succ]

theorem runCalls_from_stale (s : RLState) (u e : String) (M : ℕ) (W : ℤ)
    (now : ℚ) (hM : 1 ≤ M) (hW : 1 ≤ W)
    (hstale : ∀ x ∈ s.requests u e, (W : ℚ) ≤ now - x) :
    ∀ n, 1 ≤ n →
      runCalls s u e (M : ℤ) (List.replicate n (W, now))
        = (false :: (List.replicate (min (n - 1) (M - 1)) false
              ++ List.replicate ((n - 1) - (M - 1)) true),
           updateLog s u e (List.replicate (min (1 + (n - 1)) M) now)) := by
  have hfirst : isRateLimited s u e (M : ℤ) W now
      = (false, updateLog s u e [now]) := by
    rw [isRateLimited, cleanOldRequests_eq_nil now W _ hstale]
    have hcond : ¬ ((M : ℤ) ≤ (([] : List ℚ).length : ℤ)) := by
      simp only [List.length_nil, Nat.cast_zero]
      omega
    simp only [compareAndAppend, hcond, if_false, List.nil_append]
  intro n hn
  obtain ⟨m, rfl⟩ : ∃ m, n = m + 1 := ⟨n - 1, by omega⟩
  rw [List.replicate_succ]
  show (let r := isRateLimited s u e (M : ℤ) W now
        let rr := runCalls r.2 u e (M : ℤ) (List.replicate m (W, now))
        (r.1 :: rr.1, rr.2)) = _
  rw [hfirst]
  dsimp only
  rw [show ([now] : List ℚ) = List.replicate 1 now from rfl]
  rw [runCalls_from_replicate u e M W now hW m 1
    (updateLog s u e (List.replicate 1 now))
    (updateLog_requests_self s u e _) hM]
  rw [updateLog_updateLog]
  rw [show m + 1 - 1 = m from by omega, show min (1 + m) M = min (1 + m) M from rfl]

/-- C1: for quota M ≥ 1, window W > 0 and N > M calls of `is_rate_limited`
for one key at the same instant, starting from a log with no active entries:
the results in arrival order are exactly M times admitted (False) followed by
N - M times denied (True); each admitted call appends the timestamp, so the
key's log afterwards is M copies of now; and every denied call leaves the
whole store exactly as it was after the M-th call, so denials consume no
quota and do not change the remaining count. -/
theorem C1_burst_exactly_M_admitted (s : RLState) (u e : String) (M N : ℕ)
    (W : ℤ) (now : ℚ) (hM : 1 ≤ M) (hW : 1 ≤ W) (hMN : M < N)
    (hstale : ∀ x ∈ s.requests u e, (W : ℚ) ≤ now - x) :
    (runCalls s u e (M : ℤ) (List.replicate N (W, now))).1
        = List.replicate M false ++ List.replicate (N - M) true
  ∧ (runCalls s u e (M : ℤ) (List.replicate N (W, now))).2.requests u e
        = List.replicate M now
  ∧ ∀ j, M ≤ j → j ≤ N →
      (runCalls s u e (M : ℤ) (List.replicate j (W, now))).2
        = (runCalls s u e (M : ℤ) (List.replicate M (W, now))).2 := by
  have hrun := runCalls_from_stale s u e M W now hM hW hstale
  refine ⟨?_, ?_, ?_⟩
  · rw [hrun N (by omega)]
    show false :: (List.replicate (min (N - 1) (M - 1)) false
        ++ List.replicate ((N - 1) - (M - 1)) true) = _
    rw [show min (N - 1) (M - 1) = M - 1 from by omega,
      show (N - 1) - (M - 1) = N - M from by omega,
      ← List.cons_append, ← List.replicate_succ,
      show M - 1 + 1 = M from by omega]
  · rw [hrun N (by omega)]
    show (updateLog s u e (List.replicate (min (1 + (N - 1)) M) now)).requests
        u e = _
    rw [updateLog_requests_self, show min (1 + (N - 1)) M = M from by omega]
  · intro j hMj hjN
    rw [hrun j (by omega), hrun M (by omega)]
    show updateLog s u e (List.replicate (min (1 + (j - 1)) M) now)
        = updateLog s u e (List.replicate (min (1 + (M - 1)) M) now)
    rw [show min (1 + (j - 1)) M = M from by omega,
      show min (1 + (M - 1)) M = M from by omega]

/-- C1 witness: quota 1, two calls at the same instant from an empty log:
the first is admitted, the second denied, and the store after both calls
equals the store after the first. -/
theorem C1_witness :
    ((1 : ℕ) ≤ 1 ∧ (1 : ℤ) ≤ 60 ∧ (1 : ℕ) < 2
      ∧ ∀ x ∈ initialState.requests "u" "search", ((60 : ℤ) : ℚ) ≤ 0 - x)
  ∧ ((runCalls initialState "u" "search" ((1 : ℕ) : ℤ)
        (List.replicate 2 ((60 : ℤ), (0 : ℚ)))).1
        = List.replicate 1 false ++ List.replicate (2 - 1) true
    ∧ (runCalls initialState "u" "search" ((1 : ℕ) : ℤ)
        (List.replicate 2 ((60 : ℤ), (0 : ℚ)))).2.requests "u" "search"
        = List.replicate 1 (0 : ℚ)
    ∧ ∀ j, 1 ≤ j → j ≤ 2 →
        (runCalls initialState "u" "search" ((1 : ℕ) : ℤ)
          (List.replicate j ((60 : ℤ), (0 : ℚ)))).2
          = (runCalls initialState "u" "search" ((1 : ℕ) : ℤ)
              (List.replicate 1 ((60 : ℤ), (0 : ℚ)))).2) :=
  ⟨⟨by decide, by decide, by decide, by simp [initialState]⟩,
   C1_burst_exactly_M_admitted initialState "u" "search" 1 2 60 0
     (by decide) (by decide) (by decide) (by simp [initialState])⟩

theorem countDone_replicate_start (b : Bool) (n : ℕ) :
    countDone b (List.replicate n CallPhase.start) = 0 := by
  induction n with
  | zero => rfl
  | succ n ih => simp [List.replicate_succ, countDone, ih]

theorem countDone_set (b : Bool) (ps : List CallPhase) (i : ℕ)
    (p q : CallPhase) (h : ps[i]? = some p) :
    countDone b (ps.set i q) + (if p = CallPhase.done b then 1 else 0)
      = countDone b ps + (if q = CallPhase.done b then 1 else 0) := by
  induction ps generalizing i with
  | nil => simp at h
  | cons r rs ih =>
      cases i with
      | zero =>
          simp only [List.getElem?_cons_zero] at h
          obtain rfl : r = p := Option.some.inj h
          simp only [List.set, countDone]
          omega
      | succ j =>
          simp only [List.getElem?_cons_succ] at h
          simp only [List.set, countDone]
          have := ih j h
          omega

theorem concStep_length (M W : ℤ) (now : ℚ) (st : List ℚ × List CallPhase)
    (i : ℕ) : (concStep M W now st i).2.length = st.2.length := by
  rcases hget : st.2[i]? with - | p
  · simp [concStep, hget]
  · cases p <;> simp [concStep, hget]

/-- Invariant of the concurrent system: the log holds one copy of `now` per
caller admitted so far, never more than the quota, and once any caller has
been denied the log is exactly at quota. -/
def ConcInv (M : ℕ) (now : ℚ) (st : List ℚ × List CallPhase) : Prop :=
  st.1 = List.replicate (countDone false st.2) now
  ∧ countDone false st.2 ≤ M
  ∧ (0 < countDone true st.2 → countDone false st.2 = M)

theorem concStep_inv (M : ℕ) (W : ℤ) (now : ℚ)
    (st : List ℚ × List CallPhase) (i : ℕ) (hW : 1 ≤ W)
    (hinv : ConcInv M now st) : ConcInv M now (concStep (M : ℤ) W now st i) := by
  obtain ⟨hlog, hle, hden⟩ := hinv
  rcases hget : st.2[i]? with - | p
  · have hstep : concStep (M : ℤ) W now st i = st := by
      simp [concStep, hget]
    rw [hstep]
    exact ⟨hlog, hle, hden⟩
  · cases p with
    | start =>
        have hcount0 := countDone_set false st.2 i CallPhase.start
          CallPhase.cleaned hget
        have hcount1 := countDone_set true st.2 i CallPhase.start
          CallPhase.cleaned hget
        simp only [concStep, hget, ConcInv]
        have hf : countDone false (st.2.set i CallPhase.cleaned)
            = countDone false st.2 := by
          simp at hcount0
          omega
        have ht : countDone true (st.2.set i CallPhase.cleaned)
            = countDone true st.2 := by
          simp at hcount1
          omega
        rw [hf, ht, hlog, cleanOldRequests_replicate now W _ hW]
        exact ⟨rfl, hle, hden⟩
    | cleaned =>
        simp only [concStep, hget, compareAndAppend, hlog,
          List.length_replicate]
        by_cases hc : (M : ℤ) ≤ (countDone false st.2 : ℤ)
        · have hcM : countDone false st.2 = M :=
            le_antisymm hle (by exact_mod_cast hc)
          have hcount0 := countDone_set false st.2 i CallPhase.cleaned
            (CallPhase.done true) hget
          have hcount1 := countDone_set true st.2 i CallPhase.cleaned
            (CallPhase.done true) hget
          simp only [hc, if_true, ConcInv]
          have hf : countDone false (st.2.set i (CallPhase.done true))
              = countDone false st.2 := by
            simp at hcount0
            omega
          have ht : countDone true (st.2.set i (CallPhase.done true))
              = countDone true st.2 + 1 := by
            simp at hcount1
            omega
          rw [hf, ht]
          exact ⟨rfl, hle, fun _ => hcM⟩
        · have hlt : countDone false st.2 < M := by
            rcases Nat.lt_or_ge (countDone false st.2) M with h | h
            · exact h
            · exact absurd (by exact_mod_cast h) hc
          have hcount0 := countDone_set false st.2 i CallPhase.cleaned
            (CallPhase.done false) hget
          have hcount1 := countDone_set true st.2 i CallPhase.cleaned
            (CallPhase.done false) hget
          simp only [hc, if_false, ConcInv]
          have hf : countDone false (st.2.set i (CallPhase.done false))
              = countDone false st.2 + 1 := by
            simp at hcount0
            omega
          have ht : countDone true (st.2.set i (CallPhase.done false))
              = countDone true st.2 := by
            simp at hcount1
            omega
          rw [hf, ht]
          refine ⟨?_, by omega, ?_⟩
          · rw [← List.replicate_succ']
          · intro hpos
            exact absurd (hden hpos) (by omega)
    | done b0 =>
        have hstep : concStep (M : ℤ) W now st i = st := by
          simp [concStep, hget]
        rw [hstep]
        exact ⟨hlog, hle, hden⟩

theorem concRun_inv (M : ℕ) (W : ℤ) (now : ℚ) (sched : List ℕ)
    (st : List ℚ × List CallPhase) (hW : 1 ≤ W) (hinv : ConcInv M now st) :
    ConcInv M now (concRun (M : ℤ) W now st sched) := by
  induction sched generalizing st with
  | nil => exact hinv
  | cons i sched ih => exact ih _ (concStep_inv M W now st i hW hinv)

theorem concRun_length (M W : ℤ) (now : ℚ) (sched : List ℕ)
    (st : List ℚ × List CallPhase) :
    (concRun M W now st sched).2.length = st.2.length := by
  induction sched generalizing st with
  | nil => rfl
  | cons i sched ih => rw [concRun, ih, concStep_length]

theorem countDone_total (ps : List CallPhase)
    (h : ∀ p ∈ ps, isDone p = true) :
    countDone false ps + countDone true ps = ps.length := by
  induction ps with
  | nil => rfl
  | cons p ps ih =>
      have hp := h p (List.mem_cons_self p ps)
      have hrest := ih fun q hq => h q (List.mem_cons_of_mem p hq)
      cases p with
      | start => exact absurd hp (by simp [isDone])
      | cleaned => exact absurd hp (by simp [isDone])
      | done b =>
          cases b <;> simp [countDone] <;> omega

/-- C2: M + K callers (K > 0) of `is_rate_limited` for one key at the same
instant, each executing its prune critical section and then its
compare-and-append critical section under the per-key lock, starting from an
empty log: under every schedule (interleaving of the callers' critical
sections) in which all callers finish, exactly M callers are admitted and K
are denied, and the log ends with exactly M entries — no interleaving lets
two callers both observe a length below the quota and both append past
capacity. -/
theorem C2_concurrent_admission (M K : ℕ) (W : ℤ) (now : ℚ) (sched : List ℕ)
    (hM : 1 ≤ M) (hK : 1 ≤ K) (hW : 1 ≤ W)
    (hdone : ∀ p ∈ (concRun (M : ℤ) W now
        ([], List.replicate (M + K) CallPhase.start) sched).2, isDone p = true) :
    countDone false (concRun (M : ℤ) W now
        ([], List.replicate (M + K) CallPhase.start) sched).2 = M
  ∧ countDone true (concRun (M : ℤ) W now
        ([], List.replicate (M + K) CallPhase.start) sched).2 = K
  ∧ (concRun (M : ℤ) W now
        ([], List.replicate (M + K) CallPhase.start) sched).1
      = List.replicate M now := by
  have hinv0 : ConcInv M now ([], List.replicate (M + K) CallPhase.start) := by
    refine ⟨?_, ?_, ?_⟩
    · rw [countDone_replicate_start]
      rfl
    · rw [countDone_replicate_start]
      omega
    · rw [countDone_replicate_start false, countDone_replicate_start true]
      omega
  have hinv := concRun_inv M W now sched _ hW hinv0
  obtain ⟨hlog, hle, hden⟩ := hinv
  have hlen := concRun_length (M : ℤ) W now sched
    ([], List.replicate (M + K) CallPhase.start)
  rw [List.length_replicate] at hlen
  have htotal := countDone_total _ hdone
  rw [hlen] at htotal
  have hct : 0 < countDone true (concRun (M : ℤ) W now
      ([], List.replicate (M + K) CallPhase.start) sched).2 := by
    by_contra hc
    push_neg at hc
    omega
  have hcf := hden hct
  refine ⟨hcf, by omega, ?_⟩
  rw [hlog, hcf]

/-- C2 witness: quota 1, two callers, the genuinely interleaved schedule
where both prune before either compares: caller 0 is admitted, caller 1 is
denied, and the log holds exactly one entry. -/
theorem C2_witness :
    ((1 : ℕ) ≤ 1 ∧ (1 : ℕ) ≤ 1 ∧ (1 : ℤ) ≤ 60
      ∧ ∀ p ∈ (concRun ((1 : ℕ) : ℤ) 60 0
          ([], List.replicate (1 + 1) CallPhase.start) [0, 1, 0, 1]).2,
          isDone p = true)
  ∧ (countDone false (concRun ((1 : ℕ) : ℤ) 60 0
        ([], List.replicate (1 + 1) CallPhase.start) [0, 1, 0, 1]).2 = 1
    ∧ countDone true (concRun ((1 : ℕ) : ℤ) 60 0
        ([], List.replicate (1 + 1) CallPhase.start) [0, 1, 0, 1]).2 = 1
    ∧ (concRun ((1 : ℕ) : ℤ) 60 0
        ([], List.replicate (1 + 1) CallPhase.start) [0, 1, 0, 1]).1
      = List.replicate 1 (0 : ℚ)) :=
  have hdone : ∀ p ∈ (concRun ((1 : ℕ) : ℤ) 60 0
      ([], List.replicate (1 + 1) CallPhase.start) [0, 1, 0, 1]).2,
      isDone p = true := by
    simp [concRun, concStep, cleanOldRequests, compareAndAppend, isDone,
      List.set]
  ⟨⟨by decide, by decide, by decide, hdone⟩,
   C2_concurrent_admission 1 1 60 0 [0, 1, 0, 1]
     (by decide) (by decide) (by decide) hdone⟩

end RateLimiterModel
